import Mathlib

/-!
Verification of the QolScripts screen-placer core: a shallow embedding of
the geometry/snap-alignment routines of `screen_placer.py`,
`screen_placer_better_1.py` and the config formatters, with theorems about
the testable properties of the specification.

Canvas coordinates are Python floats in the source; they are modelled as
exact rationals (`ℚ`).  The source compares Euclidean norms
(`np.linalg.norm`); since `Real.sqrt` is strictly monotone on nonnegative
reals, comparing two Euclidean distances is equivalent to comparing the
corresponding squared distances, which is how `find_closest_alignment`
below performs its comparisons (keeping every definition executable).
-/

/-- A 2-D point (canvas coordinates). -/
abbrev Pt : Type := ℚ × ℚ

/-- Squared Euclidean distance between two points.  The source computes
`np.linalg.norm(drag_pt - other_pt)`, i.e. the square root of this value. -/
def distSq (p q : Pt) : ℚ :=
  (p.1 - q.1) ^ 2 + (p.2 - q.2) ^ 2

/-- `get_key_points` from `screen_placer.py` (identical in
`screen_placer_better_1.py`): given `[x1, y1, x2, y2]`, return the 9 key
points: corners TL, TR, BR, BL; edge midpoints top, right, bottom, left;
center. -/
def get_key_points (x1 y1 x2 y2 : ℚ) : List Pt :=
  let cx := (x1 + x2) / 2
  let cy := (y1 + y2) / 2
  [(x1, y1),  -- top-left
   (x2, y1),  -- top-right
   (x2, y2),  -- bottom-right
   (x1, y2),  -- bottom-left
   (cx, y1),  -- top edge midpoint
   (x2, cy),  -- right edge midpoint
   (cx, y2),  -- bottom edge midpoint
   (x1, cy),  -- left edge midpoint
   (cx, cy)]  -- center

/-- Numpy multiplies a float by a bool as by 0/1. -/
def boolToQ (b : Bool) : ℚ := if b then 1 else 0

/-- The axis mask applied in `on_end_drag`:
`align_mask = np.array([align_horizontal, align_vertical]); delta *= align_mask`. -/
def applyAlignMask (align_horizontal align_vertical : Bool) (delta : Pt) : Pt :=
  (delta.1 * boolToQ align_horizontal, delta.2 * boolToQ align_vertical)

/-- One candidate comparison of the triple loop in `find_closest_alignment`:
drag-point index `i`, other-monitor index `j`, other-keypoint index `k`,
the dragged point `d` and the other point `o`. -/
structure Cand where
  i : ℕ
  j : ℕ
  k : ℕ
  d : Pt
  o : Pt
deriving DecidableEq

/-- The sequence of candidate pairs visited by the triple loop of
`find_closest_alignment`, in iteration order: the outer loop enumerates the
dragged keypoints (`i` ascending), the middle loop the other monitors
(`j` ascending), the inner loop that monitor's keypoints (`k` ascending). -/
def snapCandidates (dragged : List Pt) (others : List (List Pt)) : List Cand :=
  dragged.enum.flatMap fun di =>
    others.enum.flatMap fun jm =>
      jm.2.enum.map fun ko => ⟨di.1, jm.1, ko.1, di.2, ko.2⟩

/-- The running state of `find_closest_alignment`: best delta so far,
`best_info = (drag_idx, monitor_idx, point_idx, dist)`.  `dist = none`
models the initial `float("inf")`; otherwise it stores the squared
distance of the best pair so far. -/
structure SnapResult where
  delta : Pt
  drag_idx : ℤ
  mon_idx : ℤ
  point_idx : ℤ
  dist : Option ℚ
deriving DecidableEq

/-- Initial state: `min_dist = inf`, `best_delta = (0,0)`,
`best_info = (-1, -1, -1, inf)`. -/
def snapInit : SnapResult := ⟨(0, 0), -1, -1, -1, none⟩

/-- The loop's comparison `dist < min_dist`: everything beats the initial
infinity, otherwise compare (squared) distances. -/
def snapBetter : Option ℚ → ℚ → Bool
  | none, _ => true
  | some m, d => decide (d < m)

/-- The state produced when candidate `c` wins a comparison:
`min_dist = dist; best_delta = other_pt - drag_pt; best_info = (i, j, k, dist)`. -/
def candOut (c : Cand) : SnapResult :=
  ⟨(c.o.1 - c.d.1, c.o.2 - c.d.2), (c.i : ℤ), (c.j : ℤ), (c.k : ℤ), some (distSq c.d c.o)⟩

/-- The body of the triple loop of `find_closest_alignment`. -/
def snapStep (acc : SnapResult) (c : Cand) : SnapResult :=
  if snapBetter acc.dist (distSq c.d c.o) then candOut c else acc

/-- `find_closest_alignment` from `screen_placer.py` /
`screen_placer_better_1.py`: run the triple loop over all candidate pairs.
(The early `return` of the `better_1` variant for an empty tensor yields
the same result as running the loop zero times.) -/
def find_closest_alignment (dragged : List Pt) (others : List (List Pt)) : SnapResult :=
  (snapCandidates dragged others).foldl snapStep snapInit

/-- Reference (spec-side) description of the loop's selection: the first
candidate, in list order, attaining the minimal squared distance. -/
def firstMinCand : List Cand → Option Cand
  | [] => none
  | c :: cs =>
    match firstMinCand cs with
    | none => some c
    | some c' => if distSq c'.d c'.o < distSq c.d c.o then some c' else some c

theorem distSq_nonneg (p q : Pt) : 0 ≤ distSq p q := by
  unfold distSq
  positivity

theorem foldl_snapStep_some (cs : List Cand) :
    ∀ (acc : SnapResult) (m : ℚ), acc.dist = some m →
      cs.foldl snapStep acc =
        (match firstMinCand cs with
         | none => acc
         | some c => if distSq c.d c.o < m then candOut c else acc) := by
  induction cs with
  | nil =>
    intro acc m h
    simp [firstMinCand]
  | cons c cs ih =>
    intro acc m h
    rw [List.foldl_cons]
    by_cases hd : distSq c.d c.o < m
    · have hstep : snapStep acc c = candOut c := by
        simp [snapStep, snapBetter, h, hd]
      rw [hstep, ih (candOut c) (distSq c.d c.o) rfl]
      rcases hfm : firstMinCand cs with _ | c'
      · simp [firstMinCand, hfm, hd]
      · simp only [firstMinCand, hfm]
        by_cases hlt : distSq c'.d c'.o < distSq c.d c.o
        · have hlt' : distSq c'.d c'.o < m := lt_trans hlt hd
          simp [hlt, hlt']
        · simp [hlt, hd]
    · have hstep : snapStep acc c = acc := by
        simp [snapStep, snapBetter, h, hd]
      rw [hstep, ih acc m h]
      rcases hfm : firstMinCand cs with _ | c'
      · simp [firstMinCand, hfm, hd]
      · simp only [firstMinCand, hfm]
        by_cases hlt : distSq c'.d c'.o < distSq c.d c.o
        · simp [hlt]
        · have h1 : ¬ distSq c'.d c'.o < m := by
            push_neg at hd hlt ⊢
            exact le_trans hd hlt
          simp [hlt, hd, h1]

theorem find_closest_alignment_eq_firstMin (dragged : List Pt) (others : List (List Pt)) :
    find_closest_alignment dragged others =
      (match firstMinCand (snapCandidates dragged others) with
       | none => snapInit
       | some c => candOut c) := by
  unfold find_closest_alignment
  rcases hcs : snapCandidates dragged others with _ | ⟨c, cs⟩
  · simp [firstMinCand]
  · rw [List.foldl_cons]
    have hstep : snapStep snapInit c = candOut c := by
      simp [snapStep, snapBetter, snapInit]
    rw [hstep, foldl_snapStep_some cs (candOut c) (distSq c.d c.o) rfl]
    rcases hfm : firstMinCand cs with _ | c'
    · simp [firstMinCand, hfm]
    · simp only [firstMinCand, hfm]
      by_cases hlt : distSq c'.d c'.o < distSq c.d c.o <;> simp [hlt]

theorem firstMinCand_cons_none {a : Cand} {cs : List Cand}
    (hfm : firstMinCand cs = none) : firstMinCand (a :: cs) = some a := by
  have heq : firstMinCand (a :: cs) =
      (match firstMinCand cs with
       | none => some a
       | some c' => if distSq c'.d c'.o < distSq a.d a.o then some c' else some a) := rfl
  rw [heq, hfm]

theorem firstMinCand_cons_some {a b : Cand} {cs : List Cand}
    (hfm : firstMinCand cs = some b) :
    firstMinCand (a :: cs) =
      (if distSq b.d b.o < distSq a.d a.o then some b else some a) := by
  have heq : firstMinCand (a :: cs) =
      (match firstMinCand cs with
       | none => some a
       | some c' => if distSq c'.d c'.o < distSq a.d a.o then some c' else some a) := rfl
  rw [heq, hfm]

theorem firstMinCand_eq_none {cs : List Cand} (h : firstMinCand cs = none) : cs = [] := by
  cases cs with
  | nil => rfl
  | cons a cs =>
    exfalso
    rcases hfm : firstMinCand cs with _ | b
    · rw [firstMinCand_cons_none hfm] at h
      simp at h
    · rw [firstMinCand_cons_some hfm] at h
      split at h <;> simp at h

theorem firstMinCand_mem {cs : List Cand} {c : Cand} (h : firstMinCand cs = some c) :
    c ∈ cs := by
  induction cs with
  | nil => simp [firstMinCand] at h
  | cons a cs ih =>
    rcases hfm : firstMinCand cs with _ | b
    · rw [firstMinCand_cons_none hfm] at h
      obtain rfl : a = c := by simpa using h
      exact List.mem_cons_self a cs
    · rw [firstMinCand_cons_some hfm] at h
      split at h
      · obtain rfl : b = c := by simpa using h
        exact List.mem_cons_of_mem a (ih hfm)
      · obtain rfl : a = c := by simpa using h
        exact List.mem_cons_self a cs

theorem firstMinCand_min {cs : List Cand} :
    ∀ {c : Cand}, firstMinCand cs = some c →
      ∀ c' ∈ cs, distSq c.d c.o ≤ distSq c'.d c'.o := by
  induction cs with
  | nil => intro c h; simp [firstMinCand] at h
  | cons a cs ih =>
    intro c h x hx
    rcases hfm : firstMinCand cs with _ | b
    · rw [firstMinCand_cons_none hfm] at h
      obtain rfl : a = c := by simpa using h
      have hcs : cs = [] := firstMinCand_eq_none hfm
      subst hcs
      rcases List.mem_cons.mp hx with rfl | hx
      · exact le_refl _
      · simp at hx
    · rw [firstMinCand_cons_some hfm] at h
      split at h
      next hab =>
        obtain rfl : b = c := by simpa using h
        rcases List.mem_cons.mp hx with rfl | hx
        · exact le_of_lt hab
        · exact ih hfm x hx
      next hab =>
        obtain rfl : a = c := by simpa using h
        rcases List.mem_cons.mp hx with rfl | hx
        · exact le_refl _
        · exact le_trans (not_lt.mp hab) (ih hfm x hx)

theorem firstMinCand_first {cs : List Cand} :
    ∀ {c : Cand}, firstMinCand cs = some c →
      ∃ l r, cs = l ++ c :: r ∧ ∀ c' ∈ l, distSq c.d c.o < distSq c'.d c'.o := by
  induction cs with
  | nil => intro c h; simp [firstMinCand] at h
  | cons a cs ih =>
    intro c h
    rcases hfm : firstMinCand cs with _ | b
    · rw [firstMinCand_cons_none hfm] at h
      obtain rfl : a = c := by simpa using h
      exact ⟨[], cs, rfl, by simp⟩
    · rw [firstMinCand_cons_some hfm] at h
      split at h
      next hab =>
        obtain rfl : b = c := by simpa using h
        obtain ⟨l, r, hsplit, hl⟩ := ih hfm
        refine ⟨a :: l, r, by simp [hsplit], ?_⟩
        intro x hx
        rcases List.mem_cons.mp hx with rfl | hx
        · exact hab
        · exact hl x hx
      next hab =>
        obtain rfl : a = c := by simpa using h
        exact ⟨[], cs, rfl, by simp⟩

/-- Strict lexicographic order on index triples `(i, j, k)`: the iteration
order of the triple loop of `find_closest_alignment`. -/
def lexLt (a b : ℕ × ℕ × ℕ) : Prop :=
  a.1 < b.1 ∨ (a.1 = b.1 ∧ (a.2.1 < b.2.1 ∨ (a.2.1 = b.2.1 ∧ a.2.2 < b.2.2)))

theorem mem_enumFrom_fst_le {α : Type _} :
    ∀ (l : List α) (n : ℕ) (p : ℕ × α), p ∈ List.enumFrom n l → n ≤ p.1 := by
  intro l
  induction l with
  | nil => intro n p h; simp at h
  | cons a l ih =>
    intro n p h
    rw [List.enumFrom_cons] at h
    rcases List.mem_cons.mp h with rfl | h2
    · exact le_refl n
    · exact le_trans (Nat.le_succ n) (ih (n + 1) p h2)

theorem pairwise_enumFrom_fst_lt {α : Type _} :
    ∀ (l : List α) (n : ℕ), (List.enumFrom n l).Pairwise (fun p q => p.1 < q.1) := by
  intro l
  induction l with
  | nil => intro n; simp
  | cons a l ih =>
    intro n
    rw [List.enumFrom_cons]
    refine List.Pairwise.cons ?_ (ih (n + 1))
    intro q hq
    exact lt_of_lt_of_le (Nat.lt_succ_self n) (mem_enumFrom_fst_le l (n + 1) q hq)

theorem pairwise_enum_fst_lt {α : Type _} (l : List α) :
    l.enum.Pairwise (fun p q => p.1 < q.1) :=
  pairwise_enumFrom_fst_lt l 0

theorem pairwise_flatMap_of {α β : Type _} {R : β → β → Prop} {f : α → List β} :
    ∀ (l : List α), (∀ a ∈ l, (f a).Pairwise R) →
      l.Pairwise (fun a b => ∀ x ∈ f a, ∀ y ∈ f b, R x y) →
      (l.flatMap f).Pairwise R := by
  intro l
  induction l with
  | nil => intro _ _; simp
  | cons a l ih =>
    intro h1 h2
    rw [List.flatMap_cons, List.pairwise_append]
    obtain ⟨ha, h2'⟩ := List.pairwise_cons.mp h2
    refine ⟨h1 a (List.mem_cons_self a l), ih (fun b hb => h1 b (List.mem_cons_of_mem a hb)) h2', ?_⟩
    intro x hx y hy
    obtain ⟨b, hb, hyb⟩ := List.mem_flatMap.mp hy
    exact ha b hb x hx y hyb

theorem mem_snap_map_shape {kp : List Pt} {i j : ℕ} {d : Pt} {c : Cand}
    (h : c ∈ kp.enum.map fun ko => (⟨i, j, ko.1, d, ko.2⟩ : Cand)) :
    c.i = i ∧ c.j = j := by
  obtain ⟨ko, _, rfl⟩ := List.mem_map.mp h
  exact ⟨rfl, rfl⟩

theorem mem_snap_inner_shape {others : List (List Pt)} {i : ℕ} {d : Pt} {c : Cand}
    (h : c ∈ others.enum.flatMap fun jm =>
      jm.2.enum.map fun ko => (⟨i, jm.1, ko.1, d, ko.2⟩ : Cand)) :
    c.i = i := by
  obtain ⟨jm, _, hc⟩ := List.mem_flatMap.mp h
  exact (mem_snap_map_shape hc).1

/-- The candidate sequence is strictly increasing in the lexicographic order
of its index triples: list order coincides with the loop's iteration order
(drag-point index ascending, then other-monitor index, then other-keypoint
index). -/
theorem snapCandidates_pairwise_lexLt (dragged : List Pt) (others : List (List Pt)) :
    (snapCandidates dragged others).Pairwise
      (fun c c' => lexLt (c.i, c.j, c.k) (c'.i, c'.j, c'.k)) := by
  unfold snapCandidates
  apply pairwise_flatMap_of
  · intro di _
    apply pairwise_flatMap_of
    · intro jm _
      rw [List.pairwise_map]
      refine List.Pairwise.imp ?_ (pairwise_enum_fst_lt jm.2)
      intro p q hpq
      exact Or.inr ⟨rfl, Or.inr ⟨rfl, hpq⟩⟩
    · refine List.Pairwise.imp ?_ (pairwise_enum_fst_lt others)
      intro jm jm' hj x hx y hy
      obtain ⟨hxi, hxj⟩ := mem_snap_map_shape hx
      obtain ⟨hyi, hyj⟩ := mem_snap_map_shape hy
      rw [lexLt, hxi, hxj, hyi, hyj]
      exact Or.inr ⟨rfl, Or.inl hj⟩
  · refine List.Pairwise.imp ?_ (pairwise_enum_fst_lt dragged)
    intro di di' hd x hx y hy
    have hxi := mem_snap_inner_shape hx
    have hyi := mem_snap_inner_shape hy
    rw [lexLt, hxi, hyi]
    exact Or.inl hd

theorem snapCandidates_ne_nil {dragged : List Pt} {others : List (List Pt)}
    (hd : dragged ≠ []) (ho : others ≠ []) (hkp : ∀ kp ∈ others, kp ≠ []) :
    snapCandidates dragged others ≠ [] := by
  rcases dragged with _ | ⟨d, ds⟩
  · exact absurd rfl hd
  rcases others with _ | ⟨kp, os⟩
  · exact absurd rfl ho
  rcases hk : kp with _ | ⟨p, ps⟩
  · exact absurd hk (hkp kp (List.mem_cons_self kp os))
  subst hk
  have hmem : (⟨0, 0, 0, d, p⟩ : Cand) ∈ snapCandidates (d :: ds) ((p :: ps) :: os) := by
    unfold snapCandidates
    refine List.mem_flatMap.mpr ⟨(0, d), ?_, ?_⟩
    · rw [List.enum_cons]
      exact List.mem_cons_self _ _
    · refine List.mem_flatMap.mpr ⟨(0, p :: ps), ?_, ?_⟩
      · rw [List.enum_cons]
        exact List.mem_cons_self _ _
      · refine List.mem_map.mpr ⟨(0, p), ?_, rfl⟩
        rw [List.enum_cons]
        exact List.mem_cons_self _ _
  exact List.ne_nil_of_mem hmem

/-- C1: for a dragged rectangle's 9 keypoints and a non-empty collection of
other rectangles' 9-keypoint lists, `find_closest_alignment` returns
`delta = o - d` and `best_info = (i, j, k)` for the candidate pair `(d, o)`
of globally minimum Euclidean distance; when several pairs attain the
minimum it selects the one that is first in iteration order, i.e. least in
the lexicographic order on (drag-point index, other-monitor index,
other-keypoint index). -/
theorem find_closest_alignment_selects_global_min
    (dragged : List Pt) (others : List (List Pt))
    (h9 : dragged.length = 9) (ho : others ≠ [])
    (hall : ∀ kp ∈ others, kp.length = 9) :
    ∃ c ∈ snapCandidates dragged others,
      (find_closest_alignment dragged others).delta = (c.o.1 - c.d.1, c.o.2 - c.d.2) ∧
      (find_closest_alignment dragged others).drag_idx = (c.i : ℤ) ∧
      (find_closest_alignment dragged others).mon_idx = (c.j : ℤ) ∧
      (find_closest_alignment dragged others).point_idx = (c.k : ℤ) ∧
      (∀ c' ∈ snapCandidates dragged others,
        Real.sqrt ((distSq c.d c.o : ℚ) : ℝ) ≤ Real.sqrt ((distSq c'.d c'.o : ℚ) : ℝ)) ∧
      (∀ c' ∈ snapCandidates dragged others,
        Real.sqrt ((distSq c'.d c'.o : ℚ) : ℝ) = Real.sqrt ((distSq c.d c.o : ℚ) : ℝ) →
        c' = c ∨ lexLt (c.i, c.j, c.k) (c'.i, c'.j, c'.k)) := by
  have hdne : dragged ≠ [] := by
    intro hnil
    rw [hnil] at h9
    simp at h9
  have hkpne : ∀ kp ∈ others, kp ≠ [] := by
    intro kp hkp hnil
    have h := hall kp hkp
    rw [hnil] at h
    simp at h
  have hne := snapCandidates_ne_nil hdne ho hkpne
  obtain ⟨c, hc⟩ : ∃ c, firstMinCand (snapCandidates dragged others) = some c := by
    rcases hfm : firstMinCand (snapCandidates dragged others) with _ | c
    · exact absurd (firstMinCand_eq_none hfm) hne
    · exact ⟨c, rfl⟩
  have hres : find_closest_alignment dragged others = candOut c := by
    rw [find_closest_alignment_eq_firstMin, hc]
  refine ⟨c, firstMinCand_mem hc, ?_, ?_, ?_, ?_, ?_, ?_⟩
  · rw [hres]; rfl
  · rw [hres]; rfl
  · rw [hres]; rfl
  · rw [hres]; rfl
  · intro c' hc'
    have hle := firstMinCand_min hc c' hc'
    exact Real.sqrt_le_sqrt (by exact_mod_cast hle)
  · intro c' hc' heq
    have hQ : distSq c'.d c'.o = distSq c.d c.o := by
      have h0 : (0 : ℝ) ≤ ((distSq c'.d c'.o : ℚ) : ℝ) := by
        exact_mod_cast distSq_nonneg c'.d c'.o
      have h0' : (0 : ℝ) ≤ ((distSq c.d c.o : ℚ) : ℝ) := by
        exact_mod_cast distSq_nonneg c.d c.o
      have := (Real.sqrt_inj h0 h0').mp heq
      exact_mod_cast this
    obtain ⟨l, r, hsplit, hl⟩ := firstMinCand_first hc
    have hpw := snapCandidates_pairwise_lexLt dragged others
    rw [hsplit] at hpw hc'
    rcases List.mem_append.mp hc' with hmem | hmem
    · exfalso
      have := hl c' hmem
      rw [hQ] at this
      exact lt_irrefl _ this
    · rcases List.mem_cons.mp hmem with rfl | hmem
      · exact Or.inl rfl
      · right
        have h2 := (List.pairwise_append.mp hpw).2.1
        exact (List.pairwise_cons.mp h2).1 c' hmem

/-- Witness for C1 at a concrete input: the dragged rectangle
(0,0)-(2,2) against one other rectangle (5,0)-(7,2). -/
theorem find_closest_alignment_selects_global_min_witness :
    (get_key_points 0 0 2 2).length = 9 ∧
    ([get_key_points 5 0 7 2] : List (List Pt)) ≠ [] ∧
    (∀ kp ∈ ([get_key_points 5 0 7 2] : List (List Pt)), kp.length = 9) ∧
    (∃ c ∈ snapCandidates (get_key_points 0 0 2 2) [get_key_points 5 0 7 2],
      (find_closest_alignment (get_key_points 0 0 2 2) [get_key_points 5 0 7 2]).delta
        = (c.o.1 - c.d.1, c.o.2 - c.d.2) ∧
      (find_closest_alignment (get_key_points 0 0 2 2) [get_key_points 5 0 7 2]).drag_idx = (c.i : ℤ) ∧
      (find_closest_alignment (get_key_points 0 0 2 2) [get_key_points 5 0 7 2]).mon_idx = (c.j : ℤ) ∧
      (find_closest_alignment (get_key_points 0 0 2 2) [get_key_points 5 0 7 2]).point_idx = (c.k : ℤ) ∧
      (∀ c' ∈ snapCandidates (get_key_points 0 0 2 2) [get_key_points 5 0 7 2],
        Real.sqrt ((distSq c.d c.o : ℚ) : ℝ) ≤ Real.sqrt ((distSq c'.d c'.o : ℚ) : ℝ)) ∧
      (∀ c' ∈ snapCandidates (get_key_points 0 0 2 2) [get_key_points 5 0 7 2],
        Real.sqrt ((distSq c'.d c'.o : ℚ) : ℝ) = Real.sqrt ((distSq c.d c.o : ℚ) : ℝ) →
        c' = c ∨ lexLt (c.i, c.j, c.k) (c'.i, c'.j, c'.k))) := by
  refine ⟨rfl, by simp, ?_, ?_⟩
  · intro kp hkp
    rw [List.mem_singleton.mp hkp]
    rfl
  · exact find_closest_alignment_selects_global_min
      (get_key_points 0 0 2 2) [get_key_points 5 0 7 2]
      rfl (by simp)
      (by intro kp hkp; rw [List.mem_singleton.mp hkp]; rfl)

/-- C2: the axis mask multiplies a disabled component by 0, so with
horizontal alignment disabled the applied delta's x-component is exactly 0,
and with vertical alignment disabled its y-component is exactly 0, for any
input configuration. -/
theorem masked_delta_component_zero (dragged : List Pt) (others : List (List Pt))
    (ah av : Bool) :
    (applyAlignMask false av (find_closest_alignment dragged others).delta).1 = 0 ∧
    (applyAlignMask ah false (find_closest_alignment dragged others).delta).2 = 0 := by
  constructor <;> simp [applyAlignMask, boolToQ]

/-- C3: with zero other rectangles the snap engine returns exactly the zero
delta (its whole result is the initial state, so no snap translation
occurs). -/
theorem find_closest_alignment_no_others_zero_delta (dragged : List Pt) :
    (find_closest_alignment dragged []).delta = (0, 0) ∧
    find_closest_alignment dragged [] = snapInit := by
  have h : snapCandidates dragged [] = [] := by
    simp [snapCandidates]
  constructor <;> simp [find_closest_alignment, h, snapInit]

/-- C4: `get_key_points` on a rectangle with `x1 ≤ x2`, `y1 ≤ y2` returns
exactly 9 points, in the order TL, TR, BR, BL, top midpoint, right
midpoint, bottom midpoint, left midpoint, center; each midpoint is the
average of its edge's two corners, and the point at index 8 is the
arithmetic center of the four corners (indices 0-3). -/
theorem get_key_points_nine_ordered_center (x1 y1 x2 y2 : ℚ)
    (hx : x1 ≤ x2) (hy : y1 ≤ y2) :
    (get_key_points x1 y1 x2 y2).length = 9 ∧
    get_key_points x1 y1 x2 y2 =
      [(x1, y1), (x2, y1), (x2, y2), (x1, y2),
       ((x1 + x2) / 2, y1), (x2, (y1 + y2) / 2),
       ((x1 + x2) / 2, y2), (x1, (y1 + y2) / 2),
       ((x1 + x2) / 2, (y1 + y2) / 2)] ∧
    (get_key_points x1 y1 x2 y2)[4]? = some (((x1 + x2) / 2, (y1 + y1) / 2)) ∧
    (get_key_points x1 y1 x2 y2)[5]? = some (((x2 + x2) / 2, (y1 + y2) / 2)) ∧
    (get_key_points x1 y1 x2 y2)[6]? = some (((x1 + x2) / 2, (y2 + y2) / 2)) ∧
    (get_key_points x1 y1 x2 y2)[7]? = some (((x1 + x1) / 2, (y1 + y2) / 2)) ∧
    (get_key_points x1 y1 x2 y2)[8]? =
      some ((x1 + x2 + x2 + x1) / 4, (y1 + y1 + y2 + y2) / 4) := by
  refine ⟨rfl, rfl, ?_, ?_, ?_, ?_, ?_⟩ <;>
    simp only [get_key_points, List.getElem?_cons_succ, List.getElem?_cons_zero,
      Option.some.injEq, Prod.mk.injEq] <;>
    constructor <;> ring

/-- Witness for C4 at the rectangle (0,0)-(2,4). -/
theorem get_key_points_nine_ordered_center_witness :
    ((0 : ℚ) ≤ 2 ∧ (0 : ℚ) ≤ 4) ∧
    ((get_key_points 0 0 2 4).length = 9 ∧
    get_key_points 0 0 2 4 =
      [((0 : ℚ), (0 : ℚ)), (2, 0), (2, 4), (0, 4),
       ((0 + 2) / 2, 0), (2, (0 + 4) / 2),
       ((0 + 2) / 2, 4), (0, (0 + 4) / 2),
       ((0 + 2) / 2, (0 + 4) / 2)] ∧
    (get_key_points 0 0 2 4)[4]? = some (((0 + 2) / 2, ((0 : ℚ) + 0) / 2)) ∧
    (get_key_points 0 0 2 4)[5]? = some ((((2 : ℚ) + 2) / 2, (0 + 4) / 2)) ∧
    (get_key_points 0 0 2 4)[6]? = some (((0 + 2) / 2, ((4 : ℚ) + 4) / 2)) ∧
    (get_key_points 0 0 2 4)[7]? = some ((((0 : ℚ) + 0) / 2, (0 + 4) / 2)) ∧
    (get_key_points 0 0 2 4)[8]? =
      some ((0 + 2 + 2 + 0) / 4, ((0 : ℚ) + 0 + 4 + 4) / 4)) :=
  ⟨⟨by norm_num, by norm_num⟩,
    get_key_points_nine_ordered_center 0 0 2 4 (by norm_num) (by norm_num)⟩

/-- The `Monitor` entity of `screen_placer.py` / `screen_placer_better_1.py`
(the display-only `color`/`canvas_id`/`text_id` fields are not part of the
core state).  `base_resolution` embeds `_base_resolution`. -/
structure Monitor where
  name : String
  position : ℤ × ℤ
  refresh_rate : ℚ
  scale : ℚ
  first_transform : ℤ
  transform : ℤ
  base_resolution : ℕ × ℕ
  resolution : ℕ × ℕ
deriving DecidableEq, Inhabited

/-- `Monitor._apply_transform_resolution`: swap width/height when rotated
90° or 270° (`transform % 2 == 1`). -/
def Monitor.apply_transform_resolution (m : Monitor) : ℕ × ℕ :=
  if m.transform % 2 = 1 then (m.base_resolution.2, m.base_resolution.1)
  else m.base_resolution

/-- `Monitor.__init__`: store the natural resolution and derive the rotated
resolution from the initial transform.  (The constructor asserts
`transform in [0, 1, 2, 3]`; theorems about constructed monitors carry that
as a hypothesis.) -/
def Monitor.make (name : String) (position : ℤ × ℤ) (resolution : ℕ × ℕ)
    (refresh_rate : ℚ) (transform : ℤ) (scale : ℚ) : Monitor :=
  let m : Monitor :=
    ⟨name, position, refresh_rate, scale, transform, transform, resolution, resolution⟩
  { m with resolution := m.apply_transform_resolution }

/-- `Monitor.rotate_clockwise`: `transform = (transform + 1) % 4` and
re-derive the resolution. -/
def Monitor.rotate_clockwise (m : Monitor) : Monitor :=
  let m' := { m with transform := (m.transform + 1) % 4 }
  { m' with resolution := m'.apply_transform_resolution }

/-- `Monitor.rotate_anticlockwise`: `transform = (transform - 1) % 4` and
re-derive the resolution. -/
def Monitor.rotate_anticlockwise (m : Monitor) : Monitor :=
  let m' := { m with transform := (m.transform - 1) % 4 }
  { m' with resolution := m'.apply_transform_resolution }

/-- `Monitor.set_rotation`: `transform = rotation_degree // 90` (Python
floor division) and re-derive the resolution.  (The method asserts
`rotation_degree in [0, 90, 180, 270]`.) -/
def Monitor.set_rotation (m : Monitor) (rotation_degree : ℤ) : Monitor :=
  let m' := { m with transform := Int.fdiv rotation_degree 90 }
  { m' with resolution := m'.apply_transform_resolution }

/-- A monitor state as maintained by the program: the transform is one of
the four rotation steps and the derived resolution is consistent with the
transform (both are established by `__init__` and preserved by every
mutation). -/
def Monitor.wf (m : Monitor) : Prop :=
  (m.transform = 0 ∨ m.transform = 1 ∨ m.transform = 2 ∨ m.transform = 3) ∧
  m.resolution = m.apply_transform_resolution

instance (m : Monitor) : Decidable m.wf := by
  unfold Monitor.wf
  infer_instance

/-- C8: from any well-formed starting state, four clockwise rotations
return the rotation step and the derived resolution to their original
values, and a clockwise rotation followed by an anticlockwise rotation is
the identity on the rotation step and the derived resolution. -/
theorem rotate_four_times_and_inverse_identity (m : Monitor) (h : m.wf) :
    (m.rotate_clockwise.rotate_clockwise.rotate_clockwise.rotate_clockwise).transform
      = m.transform ∧
    (m.rotate_clockwise.rotate_clockwise.rotate_clockwise.rotate_clockwise).resolution
      = m.resolution ∧
    (m.rotate_clockwise.rotate_anticlockwise).transform = m.transform ∧
    (m.rotate_clockwise.rotate_anticlockwise).resolution = m.resolution := by
  obtain ⟨ht, hres⟩ := h
  rcases ht with ht | ht | ht | ht <;>
    refine ⟨?_, ?_, ?_, ?_⟩ <;>
    simp [Monitor.rotate_clockwise, Monitor.rotate_anticlockwise,
      Monitor.apply_transform_resolution, ht, hres]

/-- Witness for C8 at a concrete monitor: 1920x1080 at transform 1. -/
theorem rotate_four_times_and_inverse_identity_witness :
    (Monitor.make ("DP-1") ((0 : ℤ), (0 : ℤ)) (1920, 1080) 60 1 1).wf ∧
    (((Monitor.make ("DP-1") ((0 : ℤ), (0 : ℤ)) (1920, 1080) 60 1
        1).rotate_clockwise.rotate_clockwise.rotate_clockwise.rotate_clockwise).transform
      = (Monitor.make ("DP-1") ((0 : ℤ), (0 : ℤ)) (1920, 1080) 60 1 1).transform ∧
    (((Monitor.make ("DP-1") ((0 : ℤ), (0 : ℤ)) (1920, 1080) 60 1
        1)).rotate_clockwise.rotate_clockwise.rotate_clockwise.rotate_clockwise).resolution
      = (Monitor.make ("DP-1") ((0 : ℤ), (0 : ℤ)) (1920, 1080) 60 1 1).resolution ∧
    ((Monitor.make ("DP-1") ((0 : ℤ), (0 : ℤ)) (1920, 1080) 60 1
        1).rotate_clockwise.rotate_anticlockwise).transform
      = (Monitor.make ("DP-1") ((0 : ℤ), (0 : ℤ)) (1920, 1080) 60 1 1).transform ∧
    ((Monitor.make ("DP-1") ((0 : ℤ), (0 : ℤ)) (1920, 1080) 60 1
        1).rotate_clockwise.rotate_anticlockwise).resolution
      = (Monitor.make ("DP-1") ((0 : ℤ), (0 : ℤ)) (1920, 1080) 60 1 1).resolution) := by
  have hwf : (Monitor.make ("DP-1") ((0 : ℤ), (0 : ℤ)) (1920, 1080) 60 1 1).wf := by
    constructor
    · exact Or.inr (Or.inl rfl)
    · rfl
  exact ⟨hwf, rotate_four_times_and_inverse_identity _ hwf⟩

/-- The rotation-mutating operations of the Monitor model. -/
inductive RotOp where
  | cw : RotOp
  | acw : RotOp
  | setr : ℤ → RotOp
deriving DecidableEq

/-- Apply one rotation operation. -/
def applyRotOp (m : Monitor) : RotOp → Monitor
  | RotOp.cw => m.rotate_clockwise
  | RotOp.acw => m.rotate_anticlockwise
  | RotOp.setr d => m.set_rotation d

/-- Apply a sequence of rotation operations in order. -/
def applyRotOps (m : Monitor) (ops : List RotOp) : Monitor :=
  ops.foldl applyRotOp m

/-- The argument assertion of `set_rotation`
(`rotation_degree in [0, 90, 180, 270]`); `rotate_clockwise` and
`rotate_anticlockwise` take no argument. -/
def rotOpValid : RotOp → Prop
  | RotOp.setr d => d = 0 ∨ d = 90 ∨ d = 180 ∨ d = 270
  | _ => True

instance : ∀ op : RotOp, Decidable (rotOpValid op) := by
  intro op
  cases op <;> unfold rotOpValid <;> infer_instance

theorem apply_transform_resolution_area (m : Monitor) :
    m.apply_transform_resolution.1 * m.apply_transform_resolution.2
      = m.base_resolution.1 * m.base_resolution.2 := by
  unfold Monitor.apply_transform_resolution
  split <;> simp [Nat.mul_comm]

theorem applyRotOp_base (m : Monitor) (op : RotOp) :
    (applyRotOp m op).base_resolution = m.base_resolution := by
  cases op <;> rfl

theorem applyRotOp_area (m : Monitor) (op : RotOp) :
    (applyRotOp m op).resolution.1 * (applyRotOp m op).resolution.2
      = m.base_resolution.1 * m.base_resolution.2 := by
  cases op <;>
    simp only [applyRotOp, Monitor.rotate_clockwise, Monitor.rotate_anticlockwise,
      Monitor.set_rotation] <;>
    exact apply_transform_resolution_area _

theorem applyRotOps_area (ops : List RotOp) :
    ∀ m : Monitor,
      m.resolution.1 * m.resolution.2 = m.base_resolution.1 * m.base_resolution.2 →
      (applyRotOps m ops).resolution.1 * (applyRotOps m ops).resolution.2
        = m.base_resolution.1 * m.base_resolution.2 := by
  induction ops with
  | nil => intro m hm; exact hm
  | cons op ops ih =>
    intro m hm
    have h1 := ih (applyRotOp m op) (by rw [applyRotOp_area, applyRotOp_base])
    rw [applyRotOp_base] at h1
    exact h1

/-- C10: for every constructed monitor and every sequence of
`rotate_clockwise`, `rotate_anticlockwise` and `set_rotation` operations,
the product width x height of the derived resolution is invariant: it
always equals the product of the base resolution's components. -/
theorem rotation_preserves_resolution_area
    (name : String) (position : ℤ × ℤ) (resolution : ℕ × ℕ)
    (refresh_rate : ℚ) (transform : ℤ) (scale : ℚ) (ops : List RotOp)
    (htr : transform = 0 ∨ transform = 1 ∨ transform = 2 ∨ transform = 3)
    (hops : ∀ op ∈ ops, rotOpValid op) :
    (applyRotOps (Monitor.make name position resolution refresh_rate transform scale)
        ops).resolution.1 *
      (applyRotOps (Monitor.make name position resolution refresh_rate transform scale)
        ops).resolution.2
      = resolution.1 * resolution.2 := by
  have hbase :
      (Monitor.make name position resolution refresh_rate transform scale).base_resolution
        = resolution := rfl
  have h0 := applyRotOps_area ops
      (Monitor.make name position resolution refresh_rate transform scale)
      (by rw [hbase]
          exact apply_transform_resolution_area
            (Monitor.make name position resolution refresh_rate transform scale))
  rw [hbase] at h0
  exact h0

/-- Witness for C10: a concrete monitor and operation sequence. -/
theorem rotation_preserves_resolution_area_witness :
    ((1 : ℤ) = 0 ∨ (1 : ℤ) = 1 ∨ (1 : ℤ) = 2 ∨ (1 : ℤ) = 3) ∧
    (∀ op ∈ [RotOp.cw, RotOp.setr 270, RotOp.acw], rotOpValid op) ∧
    (applyRotOps (Monitor.make ("DP-1") ((0 : ℤ), (0 : ℤ)) (1920, 1080) 60 1 1)
        [RotOp.cw, RotOp.setr 270, RotOp.acw]).resolution.1 *
      (applyRotOps (Monitor.make ("DP-1") ((0 : ℤ), (0 : ℤ)) (1920, 1080) 60 1 1)
        [RotOp.cw, RotOp.setr 270, RotOp.acw]).resolution.2
      = 1920 * 1080 := by
  refine ⟨by decide, by decide, ?_⟩
  exact rotation_preserves_resolution_area ("DP-1") ((0 : ℤ), (0 : ℤ)) (1920, 1080) 60 1 1
    [RotOp.cw, RotOp.setr 270, RotOp.acw] (by decide) (by decide)

/-- `calculate_monitor_offset` (identical in all three screen-placer
variants).  Python returns the 2-tuple `0, 0` when there are no monitors
and a single scalar `offset_x` otherwise; the dynamic return type is
embedded as a sum.  Python's stable `sorted` is `mergeSort`; the
out-of-range branch of `getD` is unreachable for the indices used. -/
def calculate_monitor_offset (monitors : List Monitor) : (ℚ × ℚ) ⊕ ℚ :=
  let n := monitors.length
  if n = 0 then Sum.inl (0, 0)
  else
    let monitors_sorted :=
      monitors.mergeSort fun a b => decide (a.position.1 ≤ b.position.1)
    let total_width : ℚ := (monitors.map fun mon => (mon.resolution.1 : ℚ)).sum
    if n % 2 = 1 then
      let mid_index := n / 2
      let mid_mon := monitors_sorted.getD mid_index default
      let mid_center_x : ℚ := (mid_mon.position.1 : ℚ) + (mid_mon.resolution.1 : ℚ) / 2
      Sum.inr (total_width / 2 - mid_center_x)
    else
      let mid_index1 := n / 2 - 1
      let mid_index2 := n / 2
      let mon1 := monitors_sorted.getD mid_index1 default
      let mon2 := monitors_sorted.getD mid_index2 default
      let mid_center_x : ℚ :=
        ((mon1.position.1 : ℚ) + (mon1.resolution.1 : ℚ) + (mon2.position.1 : ℚ)) / 2
      Sum.inr (total_width / 2 - mid_center_x)

/-- C7 counterexample: on the empty set of monitors the layout centering
calculation returns the 2-tuple `(0, 0)` - not a single scalar x-offset -
so "for every input it returns a single scalar" fails at the input `[]`. -/
theorem calculate_monitor_offset_empty_not_scalar :
    calculate_monitor_offset [] = Sum.inl ((0 : ℚ), (0 : ℚ)) ∧
    ∀ q : ℚ, calculate_monitor_offset [] ≠ Sum.inr q := by
  constructor
  · rfl
  · intro q h
    simp [calculate_monitor_offset] at h

/-- C7 (amended): on the empty set of monitors the centering calculation
returns the degenerate zero pair `(0, 0)`; on every non-empty input it
returns a single scalar x-offset. -/
theorem calculate_monitor_offset_shape :
    calculate_monitor_offset [] = Sum.inl ((0 : ℚ), (0 : ℚ)) ∧
    ∀ monitors : List Monitor, monitors ≠ [] →
      ∃ x : ℚ, calculate_monitor_offset monitors = Sum.inr x := by
  constructor
  · rfl
  · intro monitors hne
    have hn : monitors.length ≠ 0 := fun h => hne (List.length_eq_zero.mp h)
    unfold calculate_monitor_offset
    rw [if_neg hn]
    by_cases hodd : monitors.length % 2 = 1
    · rw [if_pos hodd]
      exact ⟨_, rfl⟩
    · rw [if_neg hodd]
      exact ⟨_, rfl⟩

/-- Witness for C7 (amended) at a concrete one-monitor list. -/
theorem calculate_monitor_offset_shape_witness :
    calculate_monitor_offset [] = Sum.inl ((0 : ℚ), (0 : ℚ)) ∧
    ([Monitor.make ("DP-1") ((0 : ℤ), (0 : ℤ)) (1920, 1080) 60 0 1] : List Monitor) ≠ [] ∧
    ∃ x : ℚ, calculate_monitor_offset
      [Monitor.make ("DP-1") ((0 : ℤ), (0 : ℤ)) (1920, 1080) 60 0 1] = Sum.inr x :=
  ⟨calculate_monitor_offset_shape.1, by simp,
    calculate_monitor_offset_shape.2
      [Monitor.make ("DP-1") ((0 : ℤ), (0 : ℤ)) (1920, 1080) 60 0 1] (by simp)⟩

/-- The designated main monitor (module constant `MAIN_MONITOR`). -/
def MAIN_MONITOR : String := "DP-1"

/-- The end-of-session normalization in `__main__` of `screen_placer.py`
and `screen_placer_better_1.py`: build the `positions` dict (keyed by name,
so a later duplicate would win - hence the find on the reversed list),
assert that the main monitor is present (the `none` case models the
assertion failure), copy its position as `dp1_pos`, then translate every
monitor by `-dp1_pos`. -/
def normalize_positions (monitors : List Monitor) : Option (List Monitor) :=
  (monitors.reverse.find? fun m => m.name == MAIN_MONITOR).map fun main =>
    monitors.map fun m =>
      { m with position := (m.position.1 - main.position.1, m.position.2 - main.position.2) }

theorem pairwise_name_ne_mem_eq {l : List Monitor}
    (h : l.Pairwise fun a b => a.name ≠ b.name) :
    ∀ a ∈ l, ∀ b ∈ l, a.name = b.name → a = b := by
  induction l with
  | nil => simp
  | cons x l ih =>
    intro a ha b hb hab
    obtain ⟨hx, hl⟩ := List.pairwise_cons.mp h
    rcases List.mem_cons.mp ha with ha1 | ha2
    · rcases List.mem_cons.mp hb with hb1 | hb2
      · rw [ha1, hb1]
      · exfalso
        rw [ha1] at hab
        exact hx b hb2 hab
    · rcases List.mem_cons.mp hb with hb1 | hb2
      · exfalso
        rw [hb1] at hab
        exact hx a ha2 hab.symm
      · exact ih hl a ha2 b hb2 hab

/-- C9: after the end-of-session normalization (for monitors with unique
names, as the data model guarantees), the main monitor's position is
exactly `(0, 0)`, and the difference between any two monitors' positions is
unchanged: only a common translation is applied. -/
theorem normalization_spec (monitors ms' : List Monitor)
    (hnodup : monitors.Pairwise fun a b => a.name ≠ b.name)
    (h : normalize_positions monitors = some ms') :
    (∀ m' ∈ ms', m'.name = MAIN_MONITOR → m'.position = ((0 : ℤ), (0 : ℤ))) ∧
    (∀ i j : ℕ, ∀ mi mj mi' mj' : Monitor,
      monitors[i]? = some mi → monitors[j]? = some mj →
      ms'[i]? = some mi' → ms'[j]? = some mj' →
      mi'.position.1 - mj'.position.1 = mi.position.1 - mj.position.1 ∧
      mi'.position.2 - mj'.position.2 = mi.position.2 - mj.position.2) := by
  rcases hfind : (monitors.reverse.find? fun m => m.name == MAIN_MONITOR) with _ | main
  · rw [normalize_positions, hfind] at h
    simp at h
  · rw [normalize_positions, hfind] at h
    rw [Option.map_some'] at h
    obtain rfl : _ = ms' := (Option.some.injEq _ _).mp h
    constructor
    · intro m' hm' hname
      obtain ⟨m, hm, rfl⟩ := List.mem_map.mp hm'
      have hmname : m.name = MAIN_MONITOR := hname
      have hmain_mem : main ∈ monitors := List.mem_reverse.mp (List.mem_of_find?_eq_some hfind)
      have hmain_name : main.name = MAIN_MONITOR := by
        have := List.find?_some hfind
        simpa using this
      have hmm : m = main :=
        pairwise_name_ne_mem_eq hnodup m hm main hmain_mem (by rw [hmname, hmain_name])
      subst hmm
      simp
    · intro i j mi mj mi' mj' hi hj hi' hj'
      rw [List.getElem?_map, hi, Option.map_some'] at hi'
      rw [List.getElem?_map, hj, Option.map_some'] at hj'
      obtain rfl : _ = mi' := (Option.some.injEq _ _).mp hi'
      obtain rfl : _ = mj' := (Option.some.injEq _ _).mp hj'
      constructor <;> ring

/-- A concrete two-monitor layout with the main monitor already at the
origin (so normalization is the identity on it). -/
def exampleMonitors : List Monitor :=
  [Monitor.make ("HDMI-1") ((1920 : ℤ), (0 : ℤ)) (2560, 1440) 144 0 1,
   Monitor.make ("DP-1") ((0 : ℤ), (0 : ℤ)) (1920, 1080) 60 0 1]

/-- Witness for C9 at `exampleMonitors`. -/
theorem normalization_spec_witness :
    (exampleMonitors.Pairwise fun a b => a.name ≠ b.name) ∧
    normalize_positions exampleMonitors = some exampleMonitors ∧
    ((∀ m' ∈ exampleMonitors, m'.name = MAIN_MONITOR → m'.position = ((0 : ℤ), (0 : ℤ))) ∧
    (∀ i j : ℕ, ∀ mi mj mi' mj' : Monitor,
      exampleMonitors[i]? = some mi → exampleMonitors[j]? = some mj →
      exampleMonitors[i]? = some mi' → exampleMonitors[j]? = some mj' →
      mi'.position.1 - mj'.position.1 = mi.position.1 - mj.position.1 ∧
      mi'.position.2 - mj'.position.2 = mi.position.2 - mj.position.2)) := by
  have h1 : exampleMonitors.Pairwise fun a b => a.name ≠ b.name := by decide
  have h2 : normalize_positions exampleMonitors = some exampleMonitors := by decide
  exact ⟨h1, h2, normalization_spec exampleMonitors exampleMonitors h1 h2⟩

/-- `res_area` from `get_best_monitor_modes`: pixel area of a resolution.
(The source carries resolutions as "WxH" strings and splits on "x"; they
are embedded as width/height pairs.) -/
def res_area (res : ℕ × ℕ) : ℕ := res.1 * res.2

/-- The key order of the `res_to_rates` dict: first occurrence of each
resolution in the mode list (Python dict insertion order). -/
def distinctKeys (modes : List ((ℕ × ℕ) × ℚ)) : List (ℕ × ℕ) :=
  modes.foldl (fun ks p => if p.1 ∈ ks then ks else ks ++ [p.1]) []

/-- `res_to_rates[res]`: all refresh rates listed for a resolution, in
order. -/
def ratesFor (modes : List ((ℕ × ℕ) × ℚ)) (res : ℕ × ℕ) : List ℚ :=
  (modes.filter fun p => decide (p.1 = res)).map Prod.snd

/-- Python `max(keys, key=res_area)`: the first element attaining the
maximal key (later elements win only when strictly greater). -/
def pyMaxBy (key : ℕ × ℕ → ℕ) (l : List (ℕ × ℕ)) : Option (ℕ × ℕ) :=
  l.foldl
    (fun acc x =>
      match acc with
      | none => some x
      | some b => if key x > key b then some x else some b)
    none

/-- Python `max` over a rate list: first maximum wins ties. -/
def pyMaxQ (l : List ℚ) : Option ℚ :=
  l.foldl
    (fun acc x =>
      match acc with
      | none => some x
      | some b => if x > b then some x else some b)
    none

/-- Python 3 `round` to an integer: round half to even (banker's
rounding). -/
def pyRound (q : ℚ) : ℤ :=
  let f := Int.fdiv q.num (q.den : ℤ)
  let r := q - (f : ℚ)
  if r < 1 / 2 then f
  else if 1 / 2 < r then f + 1
  else if f % 2 = 0 then f else f + 1

/-- The per-display body of `get_best_monitor_modes`: `None` ("no mode")
when the mode list is empty, otherwise the largest-area resolution (ties:
first in key order) paired with its maximal refresh rate, rounded. -/
def bestMode (modes : List ((ℕ × ℕ) × ℚ)) : Option ((ℕ × ℕ) × ℤ) :=
  match pyMaxBy res_area (distinctKeys modes) with
  | none => none
  | some best_res =>
    match pyMaxQ (ratesFor modes best_res) with
    | none => none
    | some best_rate => some (best_res, pyRound best_rate)

/-- `get_best_monitor_modes`, parameterised over the mode lists parsed from
`xrandr` (an external input): maps every display to its best mode, keeping
displays without modes as `none`. -/
def get_best_monitor_modes (monitor_modes : List (String × List ((ℕ × ℕ) × ℚ))) :
    List (String × Option ((ℕ × ℕ) × ℤ)) :=
  monitor_modes.map fun p => (p.1, bestMode p.2)

/-- The loop of `create_monitors`:
`for name, (res_str, refresh) in best_modes.items()` - the tuple unpacking
raises `TypeError` when the stored value is `None`, which is embedded as
the `none` result.  Each constructed monitor is placed at the running
`x_offset` with default transform 0 and scale 1.0. -/
def create_monitors_loop :
    List (String × Option ((ℕ × ℕ) × ℤ)) → ℤ → Option (List Monitor)
  | [], _ => some []
  | (_, none) :: _, _ => none
  | (name, some (res, refresh)) :: rest, x_offset =>
    match create_monitors_loop rest (x_offset + (res.1 : ℤ)) with
    | none => none
    | some ms => some (Monitor.make name (x_offset, 0) res (refresh : ℚ) 0 1 :: ms)

/-- The `Move "DP-2" to the front if it exists` step of `create_monitors`:
pop the first monitor named DP-2 and re-insert it at index 0. -/
def move_dp2_front (ms : List Monitor) : List Monitor :=
  match ms.find? fun m => m.name == "DP-2" with
  | none => ms
  | some dp2 => dp2 :: ms.eraseP fun m => m.name == "DP-2"

/-- `create_monitors`, parameterised over the best-mode mapping. -/
def create_monitors (best_modes : List (String × Option ((ℕ × ℕ) × ℤ))) :
    Option (List Monitor) :=
  (create_monitors_loop best_modes 0).map move_dp2_front

theorem pyRound_sixty : pyRound ((60 : ℚ)) = 60 := by
  norm_num [pyRound]

/-- C6: a display with an empty mode list is mapped to "no mode" (`none`)
by `get_best_monitor_modes`, but `create_monitors` does not exclude it:
the tuple unpacking of the `None` value fails (a `TypeError` in Python,
embedded as `none`), so monitor construction over such a best-mode mapping
aborts instead of succeeding with the display omitted. -/
theorem create_monitors_aborts_on_no_mode_display :
    get_best_monitor_modes
        [(("eDP-1"), [(((1920 : ℕ), (1080 : ℕ)), (60 : ℚ))]), (("HDMI-1"), [])]
      = [(("eDP-1"), some ((1920, 1080), (60 : ℤ))), (("HDMI-1"), none)] ∧
    create_monitors [(("eDP-1"), some ((1920, 1080), (60 : ℤ))), (("HDMI-1"), none)]
      = none := by
  constructor
  · simp [get_best_monitor_modes, bestMode, distinctKeys, ratesFor, pyMaxBy, pyMaxQ,
      res_area, pyRound_sixty, List.foldl_cons, List.foldl_nil]
  · rfl

/-- Fuel-bounded decimal-fraction digits of a rational in `[0, 1)`:
repeatedly multiply by 10 and take the integer part, stopping at an exact
zero remainder.  32 digits of fuel is far beyond the precision of any
Python float. -/
def decDigits : ℕ → ℚ → List ℕ
  | 0, _ => []
  | fuel + 1, r =>
    if r = 0 then []
    else
      let r10 := r * 10
      let d := Int.fdiv r10.num (r10.den : ℤ)
      d.toNat :: decDigits fuel (r10 - (d : ℚ))

/-- Terminating positional decimal form of a rational (integer part, then
fractional digits while any remain). -/
def decimalString (q : ℚ) : String :=
  let sign := if q < 0 then "-" else ""
  let aq := |q|
  let ip := Int.fdiv aq.num (aq.den : ℤ)
  let ds := decDigits 32 (aq - (ip : ℚ))
  if ds.isEmpty then sign ++ toString ip
  else sign ++ toString ip ++ "." ++ String.join (ds.map fun d => toString d)

/-- Python's `str()`/f-string rendering of a float whose value is an exact
short decimal: an integral value keeps a trailing ".0"
(`str(1.0) == "1.0"`), any other terminating decimal prints its shortest
decimal expansion. -/
def pyFloatRepr (q : ℚ) : String :=
  if q.den = 1 then toString q.num ++ ".0" else decimalString q

/-- C-style `"%g"` formatting (as in `"%g" % scale`) of an exact short
decimal in the non-exponent range: minimal decimal representation, no
trailing ".0" for integral values. -/
def percentG (q : ℚ) : String :=
  if q.den = 1 then toString q.num else decimalString q

/-- One line of `WDisplaysToHyprland.get_monitor_config`
(`screen_placer_better.py`): scale always included (rendered by Python's
float formatting), `,transform,<n>` appended only when the transform is
non-zero. -/
def get_monitor_config_line (name : String) (width height refresh pos_x pos_y : ℤ)
    (scale : ℚ) (transform : ℤ) : String :=
  let base_config := "monitor=" ++ name ++ "," ++ toString width ++ "x" ++ toString height
    ++ "@" ++ toString refresh ++ "," ++ toString pos_x ++ "x" ++ toString pos_y
  if transform ≠ 0 then
    base_config ++ "," ++ pyFloatRepr scale ++ ",transform," ++ toString transform
  else
    base_config ++ "," ++ pyFloatRepr scale

/-- One line of `generate_hypr_monitor_config` (`screen_placer.py`): uses
the base (unscaled) resolution, `int(round(refresh_rate))`, `"%g"`-minimal
scale, and always appends `,transform,<n>`. -/
def generate_hypr_monitor_config_line (mon : Monitor) : String :=
  "monitor=" ++ mon.name ++ "," ++ toString mon.base_resolution.1 ++ "x"
    ++ toString mon.base_resolution.2 ++ "@" ++ toString (pyRound mon.refresh_rate)
    ++ "," ++ toString mon.position.1 ++ "x" ++ toString mon.position.2
    ++ "," ++ percentG mon.scale ++ ",transform," ++ toString mon.transform

theorem get_monitor_config_line_example :
    get_monitor_config_line ("DP-1") 1920 1080 60 0 0 1 0
      = "monitor=DP-1,1920x1080@60,0x0,1.0" := by
  rfl

theorem generate_hypr_monitor_config_line_example :
    generate_hypr_monitor_config_line
        (Monitor.make ("DP-1") ((0 : ℤ), (0 : ℤ)) (1920, 1080) 60 0 1)
      = "monitor=DP-1,1920x1080@60,0x0,1,transform,0" := by
  show "monitor=" ++ "DP-1" ++ "," ++ toString ((1920 : ℕ)) ++ "x"
      ++ toString ((1080 : ℕ)) ++ "@" ++ toString (pyRound ((60 : ℚ)))
      ++ "," ++ toString ((0 : ℤ)) ++ "x" ++ toString ((0 : ℤ))
      ++ "," ++ percentG 1 ++ ",transform," ++ toString ((0 : ℤ))
      = "monitor=DP-1,1920x1080@60,0x0,1,transform,0"
  rw [pyRound_sixty]
  rfl

/-- C5 counterexample: neither formatter variant produces the claimed line
`monitor=DP-1,1920x1080@60,0x0,1` for the example monitor.  The
omit-transform-when-zero variant renders the float scale as "1.0"; the
minimal-scale variant always appends ",transform,0". -/
theorem config_line_example_matches_no_variant :
    get_monitor_config_line ("DP-1") 1920 1080 60 0 0 1 0
      ≠ "monitor=DP-1,1920x1080@60,0x0,1" ∧
    generate_hypr_monitor_config_line
        (Monitor.make ("DP-1") ((0 : ℤ), (0 : ℤ)) (1920, 1080) 60 0 1)
      ≠ "monitor=DP-1,1920x1080@60,0x0,1" := by
  constructor
  · rw [get_monitor_config_line_example]
    decide
  · rw [generate_hypr_monitor_config_line_example]
    decide

/-- C5 (amended): for the example monitor (DP-1, 1920x1080, (0,0), 60 Hz,
scale 1, rotation step 0) the omit-transform-when-zero formatter
(`get_monitor_config`) produces exactly
`monitor=DP-1,1920x1080@60,0x0,1.0` - the transform suffix is omitted but
the scale keeps Python's trailing ".0" - while the minimal-decimal scale
field (`1`, via `%g`) belongs to `generate_hypr_monitor_config`, which
always appends the transform suffix, producing
`monitor=DP-1,1920x1080@60,0x0,1,transform,0`. -/
theorem config_line_example_per_variant :
    get_monitor_config_line ("DP-1") 1920 1080 60 0 0 1 0
      = "monitor=DP-1,1920x1080@60,0x0,1.0" ∧
    generate_hypr_monitor_config_line
        (Monitor.make ("DP-1") ((0 : ℤ), (0 : ℤ)) (1920, 1080) 60 0 1)
      = "monitor=DP-1,1920x1080@60,0x0,1,transform,0" :=
  ⟨get_monitor_config_line_example, generate_hypr_monitor_config_line_example⟩
